import Mathlib

/-!
Shallow embedding of the event-orchestration core of the repository
(internal/ai/python): the retry/circuit-breaker FallbackHandler
(orchestrator/fallback.py), the EventBatcher (orchestrator/batcher.py),
the bounded event queue and stream shutdown protocol of NexusStreamClient
(bus/nexus_stream.py), the PatternOrchestrator (orchestrator/__init__.py)
and the CognitiveManager token budgeting (cognition/manager.py).

Numeric values that are Python floats in the source (backoff delays,
scores, token amounts, budgets) are modelled as rationals; all the
behaviour the claims exercise is control flow over exact comparisons and
additions, which rationals reproduce faithfully.
-/

namespace Spec2Proof

/-! ## FallbackHandler (orchestrator/fallback.py)

The operation passed to run_with_fallback is modelled as a function from
the invocation index to an optional result: `op i = none` means the i-th
invocation raises an exception, `op i = some v` means it returns v.
-/

/-- Outcome of one run_with_fallback call: the function returned a value,
re-raised the last exception (`raise` at line 42), or fell out of the
while loop (Python would implicitly return None; shown unreachable). -/
inductive RunOutcome (α : Type) where
  | success (v : α)
  | raised
  | fellThrough
  deriving DecidableEq

/-- Observable result of run_with_fallback: the outcome, the number of
invocations of the operation, the handler's failure counter and circuit
flag after the call, and the list of backoff sleep durations performed. -/
structure RunResult (α : Type) where
  outcome : RunOutcome α
  attempts : Nat
  failure_count : Nat
  circuit_open : Bool
  sleeps : List ℚ
  deriving DecidableEq

/-- State of a FallbackHandler instance: constructor arguments
max_retries and backoff_factor plus the mutable _failure_count and
_circuit_open fields (fallback.py lines 13-19). -/
structure FallbackHandler where
  max_retries : Nat
  backoff_factor : ℚ
  failure_count : Nat
  circuit_open : Bool
  deriving DecidableEq

/-- The while loop of run_with_fallback (fallback.py lines 25-45),
translated with `fuel = max_retries + 1 - retries`: the loop guard
`retries <= max_retries` is `fuel > 0`, `retries += 1` is `fuel - 1`,
and the post-increment check `retries > max_retries` is `fuel = 1`
at entry (i.e. the decremented fuel is 0).  On success the body resets
the failure counter, clears the circuit and returns (lines 27-31); on
exception it increments the counter, opens the circuit when the counter
reaches max_retries (lines 36-38), re-raises when no retries remain
(lines 41-42), otherwise sleeps for `delay` and multiplies `delay` by
the backoff factor (lines 43-45). -/
def runLoop (maxR : Nat) (bf : ℚ) (op : Nat → Option α)
    (attempt fc : Nat) (opn : Bool) (delay : ℚ) (sleeps : List ℚ) :
    Nat → RunResult α
  | 0 => ⟨.fellThrough, attempt, fc, opn, sleeps⟩
  | fuel + 1 =>
    match op attempt with
    | some v => ⟨.success v, attempt + 1, 0, false, sleeps⟩
    | none =>
      let fc' := fc + 1
      let opn' := if maxR ≤ fc' then true else opn
      if fuel = 0 then
        ⟨.raised, attempt + 1, fc', opn', sleeps⟩
      else
        runLoop maxR bf op (attempt + 1) fc' opn' (delay * bf)
          (sleeps ++ [delay]) fuel

/-- FallbackHandler.run_with_fallback: retries start at 0, delay at 1.0
(fallback.py lines 23-24), so the loop starts with max_retries + 1 fuel. -/
def FallbackHandler.run_with_fallback (h : FallbackHandler)
    (op : Nat → Option α) : RunResult α :=
  runLoop h.max_retries h.backoff_factor op 0 h.failure_count
    h.circuit_open 1 [] (h.max_retries + 1)

/-- The handler state after a run_with_fallback call (the mutable fields
updated by the call). -/
def FallbackHandler.after_run (h : FallbackHandler)
    (op : Nat → Option α) : FallbackHandler :=
  let r := h.run_with_fallback op
  { h with failure_count := r.failure_count, circuit_open := r.circuit_open }

/-- FallbackHandler.is_circuit_open (fallback.py lines 47-49). -/
def FallbackHandler.is_circuit_open (h : FallbackHandler) : Bool :=
  h.circuit_open

/-- FallbackHandler.reset_circuit (fallback.py lines 51-54). -/
def FallbackHandler.reset_circuit (h : FallbackHandler) : FallbackHandler :=
  { h with failure_count := 0, circuit_open := false }

/-- One-step unfolding of the loop: a successful invocation returns
immediately, resetting the counter and closing the circuit. -/
theorem runLoop_success_step (maxR : Nat) (bf : ℚ) (op : Nat → Option α)
    (attempt fc : Nat) (opn : Bool) (delay : ℚ) (sleeps : List ℚ)
    (fuel : Nat) (v : α) (h : op attempt = some v) :
    runLoop maxR bf op attempt fc opn delay sleeps (fuel + 1)
      = ⟨.success v, attempt + 1, 0, false, sleeps⟩ := by
  simp only [runLoop, h]

/-- One-step unfolding of the loop: a failed invocation with no fuel
left re-raises, after incrementing the counter and possibly opening the
circuit. -/
theorem runLoop_fail_last (maxR : Nat) (bf : ℚ) (op : Nat → Option α)
    (attempt fc : Nat) (opn : Bool) (delay : ℚ) (sleeps : List ℚ)
    (h : op attempt = none) :
    runLoop maxR bf op attempt fc opn delay sleeps 1
      = ⟨.raised, attempt + 1, fc + 1,
          if maxR ≤ fc + 1 then true else opn, sleeps⟩ := by
  simp [runLoop, h]

/-- One-step unfolding of the loop: a failed invocation with fuel left
sleeps for the current delay, scales the delay and retries. -/
theorem runLoop_fail_step (maxR : Nat) (bf : ℚ) (op : Nat → Option α)
    (attempt fc : Nat) (opn : Bool) (delay : ℚ) (sleeps : List ℚ)
    (fuel : Nat) (h : op attempt = none) (hf : fuel ≠ 0) :
    runLoop maxR bf op attempt fc opn delay sleeps (fuel + 1)
      = runLoop maxR bf op (attempt + 1) (fc + 1)
          (if maxR ≤ fc + 1 then true else opn) (delay * bf)
          (sleeps ++ [delay]) fuel := by
  simp only [runLoop, h, if_neg hf]

/-- For an operation that raises on every invocation, the loop re-raises
after consuming all its fuel: with fuel + 1 at entry it performs
fuel + 1 invocations, adds fuel + 1 to the failure counter, and the
circuit ends open exactly when it started open or the final counter
reaches max_retries. -/
theorem runLoop_allFail (maxR : Nat) (bf : ℚ) (op : Nat → Option α)
    (hop : ∀ i, op i = none) :
    ∀ fuel attempt fc opn delay sleeps,
      (runLoop maxR bf op attempt fc opn delay sleeps (fuel + 1)).outcome
          = .raised ∧
      (runLoop maxR bf op attempt fc opn delay sleeps (fuel + 1)).attempts
          = attempt + fuel + 1 ∧
      (runLoop maxR bf op attempt fc opn delay sleeps (fuel + 1)).failure_count
          = fc + fuel + 1 ∧
      (runLoop maxR bf op attempt fc opn delay sleeps (fuel + 1)).circuit_open
          = (opn || decide (maxR ≤ fc + fuel + 1)) := by
  intro fuel
  induction fuel with
  | zero =>
    intro attempt fc opn delay sleeps
    rw [runLoop_fail_last maxR bf op attempt fc opn delay sleeps (hop attempt)]
    refine ⟨rfl, rfl, rfl, ?_⟩
    by_cases h : maxR ≤ fc + 1 <;> simp [h]
  | succ k ih =>
    intro attempt fc opn delay sleeps
    rw [runLoop_fail_step maxR bf op attempt fc opn delay sleeps (k + 1)
      (hop attempt) (Nat.succ_ne_zero k)]
    have h3 := ih (attempt + 1) (fc + 1)
      (if maxR ≤ fc + 1 then true else opn) (delay * bf) (sleeps ++ [delay])
    refine ⟨h3.1, ?_, ?_, ?_⟩
    · rw [h3.2.1]; omega
    · rw [h3.2.2.1]; omega
    · rw [h3.2.2.2]
      have harith : fc + 1 + k + 1 = fc + (k + 1) + 1 := by omega
      rw [harith]
      by_cases h : maxR ≤ fc + 1
      · have h2 : maxR ≤ fc + (k + 1) + 1 := by omega
        simp [h, h2]
      · simp [h]

/-- For an operation that raises on its first k invocations (offset by
the starting attempt index) and succeeds on invocation k, the loop with
more than k fuel returns that success with the failure counter reset to
0 and the circuit closed. -/
theorem runLoop_succAt (maxR : Nat) (bf : ℚ) (op : Nat → Option α) (v : α) :
    ∀ k attempt fc opn delay sleeps fuel,
      (∀ i, i < k → op (attempt + i) = none) →
      op (attempt + k) = some v →
      k < fuel →
      ∃ s, runLoop maxR bf op attempt fc opn delay sleeps fuel
        = ⟨.success v, attempt + k + 1, 0, false, s⟩ := by
  intro k
  induction k with
  | zero =>
    intro attempt fc opn delay sleeps fuel _ hsucc hfuel
    obtain ⟨f, rfl⟩ := Nat.exists_eq_add_of_lt hfuel
    rw [Nat.add_zero] at hsucc
    refine ⟨sleeps, ?_⟩
    rw [runLoop_success_step maxR bf op attempt fc opn delay sleeps (0 + f)
      _ hsucc]
  | succ k ih =>
    intro attempt fc opn delay sleeps fuel hfail hsucc hfuel
    obtain ⟨f, rfl⟩ := Nat.exists_eq_add_of_lt hfuel
    have h0 : op attempt = none := by
      have := hfail 0 (Nat.succ_pos k)
      simpa using this
    rw [runLoop_fail_step maxR bf op attempt fc opn delay sleeps (k + 1 + f)
      h0 (by omega)]
    have hfail' : ∀ i, i < k → op (attempt + 1 + i) = none := by
      intro i hi
      have := hfail (i + 1) (by omega)
      have harr : attempt + (i + 1) = attempt + 1 + i := by omega
      rwa [harr] at this
    have hsucc' : op (attempt + 1 + k) = some v := by
      have harr : attempt + (k + 1) = attempt + 1 + k := by omega
      rwa [harr] at hsucc
    obtain ⟨s, hs⟩ := ih (attempt + 1) (fc + 1)
      (if maxR ≤ fc + 1 then true else opn) (delay * bf) (sleeps ++ [delay])
      (k + 1 + f) hfail' hsucc' (by omega)
    refine ⟨s, ?_⟩
    rw [hs]
    have harr : attempt + 1 + k + 1 = attempt + (k + 1) + 1 := by omega
    rw [harr]

/-- C1, counterexample: with max_retries = 1 and an operation that
raises on every invocation, run_with_fallback performs 2 invocations of
the operation (the loop guard is `retries <= max_retries`), not the 1
the claim states, before re-raising. -/
theorem C1_counterexample :
    ((FallbackHandler.mk 1 2 0 false).run_with_fallback
        (fun _ => (none : Option Nat))).attempts = 2 ∧
    (2 : Nat) ≠ 1 ∧
    ((FallbackHandler.mk 1 2 0 false).run_with_fallback
        (fun _ => (none : Option Nat))).outcome = .raised := by
  decide

/-- C1 (amended): for every FallbackHandler with max_retries = n
(n ≥ 1) and every operation that raises on every invocation,
run_with_fallback re-raises the last exception after exactly n + 1
attempts of the operation, and immediately afterwards is_circuit_open()
returns true. -/
theorem C1_always_fails (h : FallbackHandler) (op : Nat → Option α)
    (_hn : 1 ≤ h.max_retries) (hop : ∀ i, op i = none) :
    (h.run_with_fallback op).outcome = .raised ∧
    (h.run_with_fallback op).attempts = h.max_retries + 1 ∧
    (h.after_run op).is_circuit_open = true := by
  have h4 := runLoop_allFail h.max_retries h.backoff_factor op hop
    h.max_retries 0 h.failure_count h.circuit_open 1 []
  unfold FallbackHandler.run_with_fallback FallbackHandler.after_run
    FallbackHandler.is_circuit_open FallbackHandler.run_with_fallback
  refine ⟨h4.1, ?_, ?_⟩
  · rw [h4.2.1]; omega
  · show (runLoop h.max_retries h.backoff_factor op 0 h.failure_count
      h.circuit_open 1 [] (h.max_retries + 1)).circuit_open = true
    rw [h4.2.2.2]
    have hle : h.max_retries ≤ h.failure_count + h.max_retries + 1 := by
      omega
    simp [hle]

/-- Closed witness for C1_always_fails at max_retries = 2 and an
always-raising operation: the run makes 3 attempts. -/
theorem C1_witness :
    ((FallbackHandler.mk 2 2 0 false).run_with_fallback
        (fun _ => (none : Option Nat))).attempts = 3 :=
  (C1_always_fails (FallbackHandler.mk 2 2 0 false) (fun _ => none)
    (by decide) (fun _ => rfl)).2.1

/-- C6: for every FallbackHandler with max_retries = n and every
operation that raises on exactly its first k invocations (k < n) and
then succeeds, run_with_fallback returns the operation's success value,
and afterwards failure_count equals 0 and the circuit is closed. -/
theorem C6_fail_then_succeed (h : FallbackHandler) (op : Nat → Option α)
    (k : Nat) (v : α) (hk : k < h.max_retries)
    (hfail : ∀ i, i < k → op i = none) (hsucc : op k = some v) :
    (h.run_with_fallback op).outcome = .success v ∧
    (h.after_run op).failure_count = 0 ∧
    (h.after_run op).is_circuit_open = false := by
  obtain ⟨s, hs⟩ := runLoop_succAt h.max_retries h.backoff_factor op v k 0
    h.failure_count h.circuit_open 1 [] (h.max_retries + 1)
    (by intro i hi; simpa using hfail i hi) (by simpa using hsucc)
    (by omega)
  unfold FallbackHandler.run_with_fallback FallbackHandler.after_run
    FallbackHandler.is_circuit_open FallbackHandler.run_with_fallback
  rw [hs]
  exact ⟨rfl, rfl, rfl⟩

/-- Closed witness for C6_fail_then_succeed: max_retries = 3, an
operation raising only on its first invocation, success value 42. -/
theorem C6_witness :
    ((FallbackHandler.mk 3 2 0 false).run_with_fallback
        (fun i => if i = 0 then none else some (42 : Nat))).outcome
      = .success 42 :=
  (C6_fail_then_succeed (FallbackHandler.mk 3 2 0 false)
    (fun i => if i = 0 then none else some 42) 1 42 (by decide)
    (by intro i hi
        have hi0 : i = 0 := by omega
        subst hi0
        rfl)
    rfl).1

/-- C7, counterexample: a FallbackHandler whose circuit is open becomes
closed again by a run_with_fallback invocation whose operation succeeds,
with no reset() call — refuting the claim that only reset() transitions
the circuit from open to closed. -/
theorem C7_counterexample :
    (FallbackHandler.mk 3 2 7 true).is_circuit_open = true ∧
    ((FallbackHandler.mk 3 2 7 true).after_run
        (fun _ => some (0 : Nat))).is_circuit_open = false := by
  decide

/-- C7 (amended): once the circuit is open, it transitions back to
closed only via an explicit reset() call or via a run_with_fallback
invocation whose operation succeeds at some attempt: a run whose
operation raises on every invocation leaves the circuit open, and
reset() closes it. -/
theorem C7_open_persists (h : FallbackHandler) (op : Nat → Option α)
    (hopen : h.is_circuit_open = true) (hop : ∀ i, op i = none) :
    (h.after_run op).is_circuit_open = true ∧
    h.reset_circuit.is_circuit_open = false := by
  have h4 := runLoop_allFail h.max_retries h.backoff_factor op hop
    h.max_retries 0 h.failure_count h.circuit_open 1 []
  unfold FallbackHandler.is_circuit_open at hopen
  constructor
  · unfold FallbackHandler.after_run FallbackHandler.is_circuit_open
      FallbackHandler.run_with_fallback
    show (runLoop h.max_retries h.backoff_factor op 0 h.failure_count
      h.circuit_open 1 [] (h.max_retries + 1)).circuit_open = true
    rw [h4.2.2.2, hopen]
    simp
  · rfl

/-- Closed witness for C7_open_persists: an open handler stays open
through a run whose operation always raises. -/
theorem C7_witness :
    ((FallbackHandler.mk 3 2 7 true).after_run
        (fun _ => (none : Option Nat))).is_circuit_open = true :=
  (C7_open_persists (FallbackHandler.mk 3 2 7 true) (fun _ => none)
    rfl (fun _ => rfl)).1

/-- C8: with max_retries = 3, backoff_factor = 2 and an operation that
raises on every invocation, the backoff sleeps performed before the
final re-raise are exactly 1, 2 and 4 time units in that order,
totalling 7; the run ends by re-raising. -/
theorem C8_backoff_sleeps :
    ((FallbackHandler.mk 3 2 0 false).run_with_fallback
        (fun _ => (none : Option Nat))).sleeps = [1, 2, 4] ∧
    ((FallbackHandler.mk 3 2 0 false).run_with_fallback
        (fun _ => (none : Option Nat))).sleeps.sum = 7 ∧
    ((FallbackHandler.mk 3 2 0 false).run_with_fallback
        (fun _ => (none : Option Nat))).outcome = .raised := by
  refine ⟨?_, ?_, ?_⟩ <;>
    norm_num [FallbackHandler.run_with_fallback, runLoop]

/-! ## EventBatcher (orchestrator/batcher.py)

Only the size-triggered flush path is modelled: add_event appends under
the lock and flushes when the buffer reaches batch_size (lines 101-113).
The background timer thread and stop() are not needed by the claims.
The handler invocations are recorded in `flushes`, in order, each entry
being the batch handed to the handler.
-/

/-- State of an EventBatcher: the configured batch_size, the _events
buffer, and the trace of batches handed to the _on_batch handler. -/
structure EventBatcher (α : Type) where
  batch_size : Nat
  events : List α
  flushes : List (List α)
  deriving DecidableEq

/-- EventBatcher._flush (batcher.py lines 107-113): an empty buffer is
not flushed; otherwise the buffer is copied, cleared, and handed to the
handler. -/
def EventBatcher.flush (b : EventBatcher α) : EventBatcher α :=
  if b.events.isEmpty then b
  else { b with events := [], flushes := b.flushes ++ [b.events] }

/-- EventBatcher.add_event (batcher.py lines 101-105): append the event;
if the buffer length reaches batch_size, flush within the same critical
section. -/
def EventBatcher.add_event (b : EventBatcher α) (e : α) : EventBatcher α :=
  let b' := { b with events := b.events ++ [e] }
  if b.batch_size ≤ b'.events.length then b'.flush else b'

/-- A sequence of add_event calls, in order. -/
def EventBatcher.add_all (b : EventBatcher α) (es : List α) :
    EventBatcher α :=
  es.foldl EventBatcher.add_event b

/-- add_event when the appended buffer reaches the batch size: the
whole buffer is flushed to the handler. -/
theorem add_event_full (B : Nat) (buf : List α) (fl : List (List α))
    (e : α) (h : B ≤ buf.length + 1) :
    EventBatcher.add_event ⟨B, buf, fl⟩ e = ⟨B, [], fl ++ [buf ++ [e]]⟩ := by
  have hlen : B ≤ (buf ++ [e]).length := by
    rw [List.length_append]
    simpa using h
  have hempty : (buf ++ [e]).isEmpty = false := by
    cases buf <;> rfl
  simp only [EventBatcher.add_event, EventBatcher.flush]
  rw [if_pos hlen]
  simp [hempty]

/-- add_event when the appended buffer stays below the batch size: the
event is only appended. -/
theorem add_event_not_full (B : Nat) (buf : List α) (fl : List (List α))
    (e : α) (h : ¬ B ≤ buf.length + 1) :
    EventBatcher.add_event ⟨B, buf, fl⟩ e = ⟨B, buf ++ [e], fl⟩ := by
  have hlen : ¬ B ≤ (buf ++ [e]).length := by
    rw [List.length_append]
    simpa using h
  simp only [EventBatcher.add_event]
  rw [if_neg hlen]

/-- Adding a nonempty run of events that brings the buffer exactly to
batch_size triggers exactly one flush, of the whole buffer in insertion
order, and leaves the buffer empty. -/
theorem add_all_reaches_size (B : Nat) :
    ∀ (es buf : List α) (fl : List (List α)), es ≠ [] →
      buf.length + es.length = B →
      EventBatcher.add_all ⟨B, buf, fl⟩ es
        = ⟨B, [], fl ++ [buf ++ es]⟩ := by
  intro es
  induction es with
  | nil => intro buf fl hne _; exact absurd rfl hne
  | cons e rest ih =>
    intro buf fl _ hlen
    rcases rest with _ | ⟨e2, rest2⟩
    · simp only [List.length_cons, List.length_nil] at hlen
      simp only [EventBatcher.add_all, List.foldl]
      rw [add_event_full B buf fl e (by omega)]
    · have hlt : ¬ B ≤ buf.length + 1 := by
        simp only [List.length_cons] at hlen
        omega
      simp only [EventBatcher.add_all, List.foldl]
      rw [add_event_not_full B buf fl e hlt]
      have h2 := ih (buf ++ [e]) fl (by simp)
        (by simp only [List.length_cons] at hlen
            simp only [List.length_append, List.length_cons,
              List.length_nil]
            omega)
      simp only [EventBatcher.add_all, List.foldl] at h2
      rw [h2, List.append_assoc, List.singleton_append]

/-- C5: for every Batcher with batch_size = B ≥ 1 and every sequence of
exactly B add calls starting from an empty buffer with no intervening
flush, the batch handler is invoked exactly once, with a batch of
length B whose items appear in insertion order, and the internal buffer
is empty immediately after the handler invocation. -/
theorem C5_size_triggered_flush (B : Nat) (es : List α)
    (hB : 1 ≤ B) (hlen : es.length = B) :
    EventBatcher.add_all ⟨B, [], []⟩ es = ⟨B, [], [es]⟩ := by
  have hne : es ≠ [] := by
    intro h
    rw [h] at hlen
    simp at hlen
    omega
  have := add_all_reaches_size B es [] [] hne (by simpa using hlen)
  simpa using this

/-- Closed witness for C5_size_triggered_flush: batch_size 3, three
adds, one flush of [10, 20, 30]. -/
theorem C5_witness :
    EventBatcher.add_all ⟨3, [], []⟩ [10, 20, 30]
      = ⟨3, [], [[10, 20, 30]]⟩ :=
  C5_size_triggered_flush 3 [10, 20, 30] (by decide) rfl

/-! ## Bounded event queue (bus/nexus_stream.py)

NexusStreamClient._event_queue is a bounded queue; event_producer pushes
each received event with put(timeout=0.1) and, when the queue is full
(which, with no consumers running, it stays for the whole timeout),
catches queue.Full, logs a warning and drops the event (lines 151-156).
The capacity is a parameter here; the source constructs the queue with
maxsize=1000 (line 109).  `true` in the result trace means the push
succeeded, `false` that the event was dropped with a warning.
-/

/-- One producer push against the bounded queue with no consumers
running: it succeeds exactly when the queue is below capacity, and the
event is dropped (with a warning) otherwise. -/
def tryPush (cap : Nat) (q : List α) (e : α) : List α × Bool :=
  if q.length < cap then (q ++ [e], true) else (q, false)

/-- The producer pushing a list of events in order, with no consumers
running; returns the final queue and the per-event success trace. -/
def pushAll (cap : Nat) (q : List α) : List α → List α × List Bool
  | [] => (q, [])
  | e :: rest =>
    let r := tryPush cap q e
    let tail := pushAll cap r.1 rest
    (tail.1, r.2 :: tail.2)

/-- tryPush never grows the queue beyond the capacity. -/
theorem tryPush_length_le (cap : Nat) (q : List α) (e : α)
    (h : q.length ≤ cap) : (tryPush cap q e).1.length ≤ cap := by
  unfold tryPush
  by_cases hlt : q.length < cap
  · simp [hlt]; omega
  · simp [hlt, h]

/-- pushAll never grows the queue beyond the capacity. -/
theorem pushAll_length_le (cap : Nat) :
    ∀ (es q : List α), q.length ≤ cap → (pushAll cap q es).1.length ≤ cap := by
  intro es
  induction es with
  | nil => intro q h; simpa [pushAll] using h
  | cons e rest ih =>
    intro q h
    have hstep := tryPush_length_le cap q e h
    have hmain := ih (tryPush cap q e).1 hstep
    simpa [pushAll] using hmain

/-- C3: with capacity 2 and 5 events pushed by the producer with no
consumers running, pushes 1 and 2 succeed, pushes 3, 4 and 5 are
dropped with a warning, and the queue length remains exactly 2; in
general, starting from an empty queue, the number of buffered events
never exceeds the capacity. -/
theorem C3_backpressure_drop :
    ((pushAll 2 ([] : List Nat) [1, 2, 3, 4, 5]).2
        = [true, true, false, false, false] ∧
      (pushAll 2 ([] : List Nat) [1, 2, 3, 4, 5]).1 = [1, 2]) ∧
    ∀ (cap : Nat) (es : List Nat),
      (pushAll cap ([] : List Nat) es).1.length ≤ cap := by
  refine ⟨⟨by decide, by decide⟩, ?_⟩
  intro cap es
  exact pushAll_length_le cap es [] (by simp)

/-! ## CognitiveManager (cognition/manager.py)

Python dicts keyed by campaign id are modelled as association lists:
assignment replaces the value of an existing key in place and appends a
new key at the end, and lookup returns the first (unique) match.
Token amounts and budgets (Python floats) are rationals here.
-/

/-- One entry of CognitiveManager.campaigns: the goal, budget and
tokens_used fields set by register_campaign (manager.py line 21). -/
structure Campaign where
  goal : String
  budget : ℚ
  tokens_used : ℚ
  deriving DecidableEq

/-- Dict lookup on an association list. -/
def lookupAssoc : List (String × β) → String → Option β
  | [], _ => none
  | (k, v) :: rest, key => if k = key then some v else lookupAssoc rest key

/-- Dict assignment on an association list: replace in place when the
key exists, append otherwise. -/
def setAssoc : List (String × β) → String → β → List (String × β)
  | [], key, v => [(key, v)]
  | (k, w) :: rest, key, v =>
    if k = key then (k, v) :: rest else (k, w) :: setAssoc rest key v

/-- CognitiveManager state: the campaigns dict and the kpis dict
(manager.py lines 13-17; config and token_budgets are never read by the
operations the claims exercise). -/
structure CognitiveManager where
  campaigns : List (String × Campaign)
  kpis : List (String × List (String × ℚ))
  deriving DecidableEq

/-- CognitiveManager.register_campaign (manager.py lines 19-21):
(re)sets the campaign entry with tokens_used = 0. -/
def CognitiveManager.register_campaign (m : CognitiveManager)
    (cid goal : String) (budget : ℚ) : CognitiveManager :=
  { m with campaigns := setAssoc m.campaigns cid ⟨goal, budget, 0⟩ }

/-- CognitiveManager.update_kpi (manager.py lines 23-27). -/
def CognitiveManager.update_kpi (m : CognitiveManager)
    (cid kpi_name : String) (value : ℚ) : CognitiveManager :=
  let inner := (lookupAssoc m.kpis cid).getD []
  { m with kpis := setAssoc m.kpis cid (setAssoc inner kpi_name value) }

/-- CognitiveManager.spend_tokens (manager.py lines 29-37): False when
the campaign is unknown or the spend would exceed the budget, otherwise
True with tokens_used increased by the amount. -/
def CognitiveManager.spend_tokens (m : CognitiveManager)
    (cid : String) (amount : ℚ) : Bool × CognitiveManager :=
  match lookupAssoc m.campaigns cid with
  | none => (false, m)
  | some c =>
    if c.budget < c.tokens_used + amount then (false, m)
    else
      (true,
        { m with campaigns := (setAssoc m.campaigns cid
            (Campaign.mk c.goal c.budget (c.tokens_used + amount))) })

/-- The operations a caller can perform on a CognitiveManager
(optimize, manager.py lines 39-42, is a pass and is omitted). -/
inductive MgrOp where
  | register (cid goal : String) (budget : ℚ)
  | spend (cid : String) (amount : ℚ)
  | updateKpi (cid kpi_name : String) (value : ℚ)

/-- Apply one operation to the manager state. -/
def applyOp (m : CognitiveManager) : MgrOp → CognitiveManager
  | .register cid goal budget => m.register_campaign cid goal budget
  | .spend cid amount => (m.spend_tokens cid amount).2
  | .updateKpi cid kpi_name value => m.update_kpi cid kpi_name value

/-- Apply a sequence of operations, oldest first. -/
def applyOps (m : CognitiveManager) (ops : List MgrOp) : CognitiveManager :=
  ops.foldl applyOp m

/-- A freshly constructed CognitiveManager (manager.py lines 13-17). -/
def CognitiveManager.init : CognitiveManager := ⟨[], []⟩

/-- Membership in a set association list comes from the new pair or
from the original list. -/
theorem mem_setAssoc (l : List (String × β)) (key : String) (v : β) :
    ∀ p ∈ setAssoc l key v, p = (key, v) ∨ p ∈ l := by
  induction l with
  | nil =>
    intro p hp
    simp only [setAssoc, List.mem_singleton] at hp
    exact Or.inl hp
  | cons hd tl ih =>
    intro p hp
    obtain ⟨k, w⟩ := hd
    simp only [setAssoc] at hp
    by_cases hk : k = key
    · rw [if_pos hk] at hp
      rcases List.mem_cons.mp hp with h | h
      · subst hk; exact Or.inl (by simpa using h)
      · exact Or.inr (List.mem_cons_of_mem _ h)
    · rw [if_neg hk] at hp
      rcases List.mem_cons.mp hp with h | h
      · exact Or.inr (h ▸ List.mem_cons_self _ _)
      · rcases ih p h with h2 | h2
        · exact Or.inl h2
        · exact Or.inr (List.mem_cons_of_mem _ h2)

/-- A successful lookup returns a pair of the list. -/
theorem mem_of_lookupAssoc (l : List (String × β)) (key : String) (v : β)
    (h : lookupAssoc l key = some v) : (key, v) ∈ l := by
  induction l with
  | nil => simp [lookupAssoc] at h
  | cons hd tl ih =>
    obtain ⟨k, w⟩ := hd
    simp only [lookupAssoc] at h
    by_cases hk : k = key
    · rw [if_pos hk] at h
      subst hk
      simp only [Option.some.injEq] at h
      subst h
      exact List.mem_cons_self _ _
    · rw [if_neg hk] at h
      exact List.mem_cons_of_mem _ (ih h)

/-- The budget-compliance invariant: every campaign entry satisfies
tokens_used ≤ budget. -/
def BudgetOk (m : CognitiveManager) : Prop :=
  ∀ p ∈ m.campaigns, (Prod.snd p).tokens_used ≤ (Prod.snd p).budget

/-- Each operation preserves the budget-compliance invariant, provided
registrations use nonnegative budgets. -/
theorem applyOp_budgetOk (m : CognitiveManager) (o : MgrOp)
    (hm : BudgetOk m)
    (hreg : ∀ cid goal budget, o = .register cid goal budget → 0 ≤ budget) :
    BudgetOk (applyOp m o) := by
  cases o with
  | register cid goal budget =>
    intro p hp
    rcases mem_setAssoc m.campaigns cid ⟨goal, budget, 0⟩ p hp with h | h
    · subst h
      exact hreg cid goal budget rfl
    · exact hm p h
  | spend cid amount =>
    simp only [applyOp, CognitiveManager.spend_tokens]
    cases hl : lookupAssoc m.campaigns cid with
    | none => exact hm
    | some c =>
      by_cases hb : c.budget < c.tokens_used + amount
      · simp only [if_pos hb]
        exact hm
      · simp only [if_neg hb]
        intro p hp
        rcases mem_setAssoc m.campaigns cid
          (Campaign.mk c.goal c.budget (c.tokens_used + amount)) p hp
          with h | h
        · subst h
          simpa using not_lt.mp hb
        · exact hm p h
  | updateKpi cid kpi_name value => exact hm

/-- C10, counterexample: register_campaign accepts a negative budget,
after which the freshly registered campaign already violates
tokens_used ≤ budget (0 > -1) with no spend_tokens call at all — so
"tokens_used never exceeds budget after any sequence of operations"
fails as universally stated. -/
theorem C10_counterexample :
    lookupAssoc
        ((CognitiveManager.init.register_campaign "c" "g" (-1)).campaigns)
        "c" = some ⟨"g", -1, 0⟩ ∧
    ¬ ((0 : ℚ) ≤ -1) := by
  constructor
  · rfl
  · norm_num

/-- C10 (amended): spend_tokens succeeds (returns True and increases
the campaign's tokens_used by exactly the amount) iff the campaign is
registered and tokens_used + amount does not exceed its budget, and
otherwise returns False leaving the state unchanged; consequently, for
every sequence of operations whose registrations all use nonnegative
budgets, every registered campaign satisfies tokens_used ≤ budget. -/
theorem C10_spend_tokens_budget :
    (∀ (m : CognitiveManager) (cid : String) (amount : ℚ),
      ((m.spend_tokens cid amount).1 = true ↔
        ∃ c, lookupAssoc m.campaigns cid = some c ∧
          c.tokens_used + amount ≤ c.budget) ∧
      ((m.spend_tokens cid amount).1 = false →
        (m.spend_tokens cid amount).2 = m) ∧
      (∀ c, lookupAssoc m.campaigns cid = some c →
        c.tokens_used + amount ≤ c.budget →
        (m.spend_tokens cid amount).2.campaigns
          = setAssoc m.campaigns cid
              ⟨c.goal, c.budget, c.tokens_used + amount⟩)) ∧
    (∀ ops : List MgrOp,
      (∀ cid goal budget, MgrOp.register cid goal budget ∈ ops → 0 ≤ budget) →
      BudgetOk (applyOps CognitiveManager.init ops)) := by
  constructor
  · intro m cid amount
    refine ⟨?_, ?_, ?_⟩
    · constructor
      · intro h
        cases hl : lookupAssoc m.campaigns cid with
        | none => simp [CognitiveManager.spend_tokens, hl] at h
        | some c =>
          by_cases hb : c.budget < c.tokens_used + amount
          · simp [CognitiveManager.spend_tokens, hl, hb] at h
          · exact ⟨c, rfl, not_lt.mp hb⟩
      · rintro ⟨c, hl, hle⟩
        simp [CognitiveManager.spend_tokens, hl, not_lt.mpr hle]
    · intro h
      cases hl : lookupAssoc m.campaigns cid with
      | none => simp [CognitiveManager.spend_tokens, hl]
      | some c =>
        by_cases hb : c.budget < c.tokens_used + amount
        · simp [CognitiveManager.spend_tokens, hl, hb]
        · simp [CognitiveManager.spend_tokens, hl, hb] at h
    · intro c hl hle
      simp [CognitiveManager.spend_tokens, hl, not_lt.mpr hle]
  · intro ops
    have hgen : ∀ (ops : List MgrOp) (m : CognitiveManager), BudgetOk m →
        (∀ cid goal budget, MgrOp.register cid goal budget ∈ ops →
          0 ≤ budget) →
        BudgetOk (applyOps m ops) := by
      intro ops
      induction ops with
      | nil => intro m hm _; exact hm
      | cons o rest ih =>
        intro m hm hreg
        simp only [applyOps, List.foldl]
        refine ih (applyOp m o) ?_ ?_
        · exact applyOp_budgetOk m o hm
            (fun cid goal budget ho =>
              hreg cid goal budget (ho ▸ List.mem_cons_self _ _))
        · exact fun cid goal budget hmem =>
            hreg cid goal budget (List.mem_cons_of_mem _ hmem)
    intro hreg
    refine hgen ops CognitiveManager.init ?_ hreg
    intro p hp
    simp [CognitiveManager.init] at hp

/-! ## PatternOrchestrator (orchestrator/__init__.py)

monitor_patterns iterates the stream (lines 30-43): a structurally new
record is appended to the in-memory list, persisted by a direct
`await self.save_pattern_to_db(pattern)` call (line 33) and logged as a
KPI (lines 36-39); then orchestrate runs unconditionally (line 43) and,
for an anomaly-flagged record, persists again through a fresh
FallbackHandler's run_with_fallback (lines 67-68) and spends one token
(line 71).  Each call to the DB collaborator's batch_insert_metadata is
recorded in `dbLog`, tagged with whether the call site wraps it in a
FallbackExecutor; each Monitor.log_kpi call is recorded in `kpiLog`.
The closing optimizer.optimize call (line 45) is pure and its result is
discarded, so it does not appear in the state. -/

/-- One pattern record: the dict fields monitor_patterns and
orchestrate read (campaign_id, category, score, anomaly).  Python dict
equality (the `not in` dedup test) is structural equality, matching the
derived DecidableEq. -/
structure PatternRecord where
  campaign_id : String
  category : String
  score : ℚ
  anomaly : Bool
  deriving DecidableEq

/-- Whether a persistence call to the DB collaborator went through a
FallbackExecutor (run_with_fallback) or was invoked directly. -/
inductive PersistVia where
  | direct
  | viaFallback
  deriving DecidableEq

/-- PatternOrchestrator state: the in-memory dedup list, the wired-in
CognitiveManager, the Monitor's kpi_history, plus the observation
traces of KPI updates and persistence calls. -/
structure PatternOrchestrator where
  patterns : List PatternRecord
  cognitive_manager : CognitiveManager
  kpi_history : List (String × List (String × ℚ))
  kpiLog : List (String × String × ℚ)
  dbLog : List (PersistVia × PatternRecord)
  deriving DecidableEq

/-- PatternOrchestrator.is_new_pattern (lines 47-49): deduplication by
structural membership in the in-memory list. -/
def PatternOrchestrator.is_new_pattern (o : PatternOrchestrator)
    (p : PatternRecord) : Prop :=
  p ∉ o.patterns

instance instDecIsNew (o : PatternOrchestrator) (p : PatternRecord) :
    Decidable (o.is_new_pattern p) :=
  inferInstanceAs (Decidable (p ∉ o.patterns))

/-- The body of monitor_patterns for one record (lines 30-43): the
dedup branch appends, persists directly and logs the KPI;
orchestrate (lines 63-72) then runs unconditionally, and on an
anomaly-flagged record persists again through run_with_fallback and
spends 1.0 token from the owning campaign. -/
def PatternOrchestrator.processPattern (o : PatternOrchestrator)
    (p : PatternRecord) : PatternOrchestrator :=
  let o1 :=
    if o.is_new_pattern p then
      { o with
        patterns := o.patterns ++ [p],
        dbLog := o.dbLog ++ [(PersistVia.direct, p)],
        kpi_history := (setAssoc o.kpi_history p.campaign_id
          (setAssoc ((lookupAssoc o.kpi_history p.campaign_id).getD [])
            p.category p.score)),
        kpiLog := o.kpiLog ++ [(p.campaign_id, p.category, p.score)] }
    else o
  if p.anomaly then
    { o1 with
      dbLog := o1.dbLog ++ [(PersistVia.viaFallback, p)],
      cognitive_manager := (o1.cognitive_manager.spend_tokens
        p.campaign_id 1).2 }
  else o1

/-- PatternOrchestrator.monitor_patterns over a stream of records. -/
def PatternOrchestrator.monitor_patterns (o : PatternOrchestrator)
    (stream : List PatternRecord) : PatternOrchestrator :=
  stream.foldl PatternOrchestrator.processPattern o

/-- A freshly constructed PatternOrchestrator (lines 16-23). -/
def PatternOrchestrator.init : PatternOrchestrator :=
  ⟨[], CognitiveManager.init, [], [], []⟩

/-- C4, counterexample: for an anomaly-flagged record fed twice, the
unconditional orchestrate step persists it through fallback on both
occurrences in addition to the one dedup-path persistence, so the DB
collaborator is called 3 times, not once (the KPI is updated once). -/
theorem C4_counterexample :
    (PatternOrchestrator.init.monitor_patterns
        [⟨"c", "k", 1, true⟩, ⟨"c", "k", 1, true⟩]).dbLog.length = 3 ∧
    (3 : Nat) ≠ 1 ∧
    (PatternOrchestrator.init.monitor_patterns
        [⟨"c", "k", 1, true⟩, ⟨"c", "k", 1, true⟩]).kpiLog.length = 1 := by
  decide

/-- C4 (amended): for every non-anomalous pattern record r, feeding r
twice to monitor_patterns (in one stream or two successive streams)
results in exactly one persistence call to the DB collaborator and
exactly one KPI update for r — the second, structurally-equal
occurrence triggers neither; anomaly-flagged records additionally
trigger a fallback-wrapped persistence on every occurrence via the
unconditional orchestrate step. -/
theorem C4_dedup_idempotent (r : PatternRecord) (h : r.anomaly = false) :
    (PatternOrchestrator.init.monitor_patterns [r, r]).dbLog
        = [(PersistVia.direct, r)] ∧
    (PatternOrchestrator.init.monitor_patterns [r, r]).kpiLog
        = [(r.campaign_id, r.category, r.score)] ∧
    (PatternOrchestrator.init.monitor_patterns [r]).monitor_patterns [r]
        = PatternOrchestrator.init.monitor_patterns [r, r] := by
  have hstep : ∀ o : PatternOrchestrator,
      PatternOrchestrator.processPattern o r
        = (if o.is_new_pattern r then
            { o with
              patterns := o.patterns ++ [r],
              dbLog := o.dbLog ++ [(PersistVia.direct, r)],
              kpi_history := (setAssoc o.kpi_history r.campaign_id
                (setAssoc
                  ((lookupAssoc o.kpi_history r.campaign_id).getD [])
                  r.category r.score)),
              kpiLog := o.kpiLog ++ [(r.campaign_id, r.category, r.score)] }
          else o) := by
    intro o
    simp [PatternOrchestrator.processPattern, h]
  refine ⟨?_, ?_, ?_⟩ <;>
    simp [PatternOrchestrator.monitor_patterns, hstep,
      PatternOrchestrator.is_new_pattern, PatternOrchestrator.init]

/-- Closed witness for C4_dedup_idempotent at a concrete non-anomalous
record. -/
theorem C4_witness :
    (PatternOrchestrator.init.monitor_patterns
        [⟨"c", "k", 2, false⟩, ⟨"c", "k", 2, false⟩]).dbLog
      = [(PersistVia.direct, ⟨"c", "k", 2, false⟩)] :=
  (C4_dedup_idempotent ⟨"c", "k", 2, false⟩ rfl).1

/-- C9, counterexample: a new, non-anomalous record fed to
monitor_patterns is persisted exactly once, by a direct
save_pattern_to_db call (line 33), not through a FallbackExecutor —
refuting the claim that new-record persistence is wrapped in a
FallbackExecutor call. -/
theorem C9_counterexample :
    (PatternOrchestrator.init.monitor_patterns
        [⟨"c", "k", 1, false⟩]).dbLog
      = [(PersistVia.direct, ⟨"c", "k", 1, false⟩)] ∧
    PersistVia.direct ≠ PersistVia.viaFallback := by
  decide

/-- C9 (amended): for every new (not previously seen) pattern record,
monitor_patterns persists it to the DB collaborator directly, without
FallbackExecutor wrapping; only the additional anomaly-path
re-persistence inside orchestrate goes through a FallbackExecutor
(run_with_fallback) call. -/
theorem C9_new_record_direct (o : PatternOrchestrator)
    (p : PatternRecord) (hnew : p ∉ o.patterns) :
    (o.processPattern p).dbLog
      = o.dbLog ++ [(PersistVia.direct, p)]
          ++ (if p.anomaly then [(PersistVia.viaFallback, p)] else []) := by
  cases hpa : p.anomaly <;>
    simp [PatternOrchestrator.processPattern,
      PatternOrchestrator.is_new_pattern, hnew, hpa]

/-- Closed witness for C9_new_record_direct at a concrete anomalous
record on a fresh orchestrator. -/
theorem C9_witness :
    (PatternOrchestrator.init.processPattern ⟨"c", "k", 1, true⟩).dbLog
      = [] ++ [(PersistVia.direct, ⟨"c", "k", 1, true⟩)]
          ++ [(PersistVia.viaFallback, ⟨"c", "k", 1, true⟩)] :=
  C9_new_record_direct PatternOrchestrator.init ⟨"c", "k", 1, true⟩
    (by simp [PatternOrchestrator.init])

/-! ## StreamClient shutdown (bus/nexus_stream.py)

stop() (lines 215-219) sets the shared stop event and then calls
`self._event_queue.join()`, which returns only when every successfully
pushed event has been matched by a task_done() call.  The producer
(lines 142-163) checks the stop event, then pushes; each worker
(lines 170-185) checks the stop event at the top of its loop, pops with
a timeout, runs the handler (exceptions caught, lines 180-183) and
calls task_done() in a finally block.  This is modelled as an
interleaving transition system over one producer, one stopper and a
pool of workers; `pushed` counts successful queue.put calls and
`doneCount` counts task_done calls, so the join() return condition
`unfinished_tasks == 0` is `pushed = doneCount`. -/

/-- Control state of one worker thread in its loop: at the loop top
(about to test the stop event), past the test and inside
queue.get(timeout=0.2), holding a popped event before task_done, or
exited. -/
inductive WStatus (E : Type) where
  | idle
  | getting
  | processing (e : E)
  | exited
  deriving DecidableEq

/-- Control state of the producer thread: at its stop-event test, past
the test and about to put, or exited. -/
inductive ProducerPhase where
  | looping
  | ready
  | exited
  deriving DecidableEq

/-- Control state of the thread calling stop(): not yet called, blocked
in queue.join(), or returned from stop(). -/
inductive StopPhase where
  | notCalled
  | joining
  | returned
  deriving DecidableEq

/-- Global state of the stream client during shutdown: the bounded
queue contents, the counters behind unfinished_tasks, the stop event,
and the control state of every thread. -/
structure StreamState (E : Type) where
  queue : List E
  pushed : Nat
  doneCount : Nat
  stopRequested : Bool
  producer : ProducerPhase
  stopper : StopPhase
  workers : List (WStatus E)
  deriving DecidableEq

/-- Whether a worker currently holds a popped event for which task_done
has not yet been called. -/
def isProcessing : WStatus E → Bool
  | WStatus.processing _ => true
  | _ => false

/-- The number of workers currently holding a popped event for which
task_done has not yet been called. -/
def countProcessing (ws : List (WStatus E)) : Nat :=
  ws.countP isProcessing

/-- Interleaved atomic steps of the producer loop (lines 144-156), the
worker loops (lines 171-185) and stop() (lines 215-219).  The producer
tests the stop event before each push and the workers before each get;
a worker that has passed its test may still pop after the stop event is
set (the source race), and exits only from the loop top.  queue.put
succeeds below capacity and drops the event otherwise; queue.join()
returns exactly when all pushed events are marked done. -/
inductive Step (cap : Nat) : StreamState E → StreamState E → Prop where
  | producer_enter (s : StreamState E) :
      s.producer = ProducerPhase.looping → s.stopRequested = false →
      Step cap s { s with producer := ProducerPhase.ready }
  | producer_exit (s : StreamState E) :
      s.producer = ProducerPhase.looping → s.stopRequested = true →
      Step cap s { s with producer := ProducerPhase.exited }
  | push_ok (s : StreamState E) (e : E) :
      s.producer = ProducerPhase.ready → s.queue.length < cap →
      Step cap s
        { s with
          producer := ProducerPhase.looping,
          queue := s.queue ++ [e],
          pushed := s.pushed + 1 }
  | push_drop (s : StreamState E) :
      s.producer = ProducerPhase.ready → ¬ s.queue.length < cap →
      Step cap s { s with producer := ProducerPhase.looping }
  | worker_exit (s : StreamState E) (i : Nat) :
      s.workers[i]? = some WStatus.idle → s.stopRequested = true →
      Step cap s { s with workers := s.workers.set i WStatus.exited }
  | worker_enter (s : StreamState E) (i : Nat) :
      s.workers[i]? = some WStatus.idle → s.stopRequested = false →
      Step cap s { s with workers := s.workers.set i WStatus.getting }
  | worker_pop (s : StreamState E) (i : Nat) (e : E) (rest : List E) :
      s.workers[i]? = some WStatus.getting → s.queue = e :: rest →
      Step cap s
        { s with
          workers := s.workers.set i (WStatus.processing e),
          queue := rest }
  | worker_timeout (s : StreamState E) (i : Nat) :
      s.workers[i]? = some WStatus.getting → s.queue = [] →
      Step cap s { s with workers := s.workers.set i WStatus.idle }
  | worker_done (s : StreamState E) (i : Nat) (e : E) :
      s.workers[i]? = some (WStatus.processing e) →
      Step cap s
        { s with
          workers := s.workers.set i WStatus.idle,
          doneCount := s.doneCount + 1 }
  | stop_call (s : StreamState E) :
      s.stopper = StopPhase.notCalled →
      Step cap s
        { s with
          stopper := StopPhase.joining,
          stopRequested := true }
  | stop_return (s : StreamState E) :
      s.stopper = StopPhase.joining → s.pushed = s.doneCount →
      Step cap s { s with stopper := StopPhase.returned }

/-- The state right after subscribe_events starts the threads: empty
queue, zero counters, stop event clear, n idle workers. -/
def initState (E : Type) (n : Nat) : StreamState E :=
  ⟨[], 0, 0, false, ProducerPhase.looping, StopPhase.notCalled,
    List.replicate n WStatus.idle⟩

/-- States reachable from the initial state by interleaved steps. -/
inductive Reachable (cap n : Nat) : StreamState E → Prop where
  | init : Reachable cap n (initState E n)
  | step {s s' : StreamState E} :
      Reachable cap n s → Step cap s s' → Reachable cap n s'

/-- The queue conservation invariant: every successfully pushed event
is buffered, in flight at a worker, or marked done. -/
def Conserved (s : StreamState E) : Prop :=
  s.pushed = s.doneCount + s.queue.length + countProcessing s.workers

/-- Replacing a known element shifts countP by the difference of the
predicate on the old and new elements. -/
theorem countP_set (p : β → Bool) :
    ∀ (ws : List β) (i : Nat) (w x : β), ws[i]? = some w →
      (ws.set i x).countP p + (if p w then 1 else 0)
        = ws.countP p + (if p x then 1 else 0) := by
  intro ws
  induction ws with
  | nil => intro i w x h; simp at h
  | cons hd tl ih =>
    intro i w x h
    cases i with
    | zero =>
      simp only [List.getElem?_cons_zero, Option.some.injEq] at h
      subst h
      simp only [List.set_cons_zero, List.countP_cons]
      by_cases h1 : p hd <;> by_cases h2 : p x <;> simp [h1, h2]
    | succ i =>
      simp only [List.getElem?_cons_succ] at h
      have hih := ih i w x h
      simp only [List.set_cons_succ, List.countP_cons]
      by_cases h2 : p hd <;> simp [h2] <;> omega

/-- Every step preserves the conservation invariant. -/
theorem step_conserved {cap : Nat} {s s' : StreamState E}
    (h : Step cap s s') (hc : Conserved s) : Conserved s' := by
  cases h with
  | producer_enter h1 h2 => exact hc
  | producer_exit h1 h2 => exact hc
  | push_ok e h1 h2 =>
    simp only [Conserved, List.length_append, List.length_cons,
      List.length_nil] at hc ⊢
    omega
  | push_drop h1 h2 => exact hc
  | worker_exit i h1 h2 =>
    have hcount := countP_set isProcessing s.workers i WStatus.idle WStatus.exited h1
    simp only [Conserved, countProcessing] at hc ⊢
    simp [isProcessing] at hcount
    omega
  | worker_enter i h1 h2 =>
    have hcount := countP_set isProcessing s.workers i WStatus.idle WStatus.getting h1
    simp only [Conserved, countProcessing] at hc ⊢
    simp [isProcessing] at hcount
    omega
  | worker_pop i e rest h1 h2 =>
    have hcount := countP_set isProcessing s.workers i WStatus.getting
      (WStatus.processing e) h1
    simp only [Conserved, countProcessing] at hc ⊢
    simp [isProcessing] at hcount
    rw [h2] at hc
    simp only [List.length_cons] at hc
    omega
  | worker_timeout i h1 h2 =>
    have hcount := countP_set isProcessing s.workers i WStatus.getting WStatus.idle h1
    simp only [Conserved, countProcessing] at hc ⊢
    simp [isProcessing] at hcount
    omega
  | worker_done i e h1 =>
    have hcount := countP_set isProcessing s.workers i (WStatus.processing e)
      WStatus.idle h1
    simp only [Conserved, countProcessing] at hc ⊢
    simp [isProcessing] at hcount
    omega
  | stop_call h1 => exact hc
  | stop_return h1 h2 => exact hc

/-- The conservation invariant holds in every reachable state. -/
theorem reachable_conserved {cap n : Nat} {s : StreamState E}
    (h : Reachable cap n s) : Conserved s := by
  induction h with
  | init =>
    simp only [Conserved, initState, countProcessing, List.length_nil]
    rw [eq_comm, Nat.add_eq_zero]
    refine ⟨rfl, ?_⟩
    rw [List.countP_eq_zero]
    intro a ha
    simp [List.eq_of_mem_replicate ha, isProcessing]
  | step _ hstep ih => exact step_conserved hstep ih

/-- C2: in every execution, the step on which stop() returns (the
return from queue.join()) can only happen when every successfully
pushed event has been popped by a consumer and marked done: at that
moment pushed = doneCount, the queue is empty and no worker holds an
unfinished event, so no already-buffered event is lost during
shutdown. -/
theorem C2_stop_returns_drained {cap n : Nat} {s s' : StreamState E}
    (hr : Reachable cap n s) (hstep : Step cap s s')
    (hbefore : s.stopper ≠ StopPhase.returned)
    (hafter : s'.stopper = StopPhase.returned) :
    s'.pushed = s'.doneCount ∧ s'.queue = [] ∧
      countProcessing s'.workers = 0 := by
  have hc : Conserved s := reachable_conserved hr
  cases hstep with
  | producer_enter h1 h2 => exact absurd hafter hbefore
  | producer_exit h1 h2 => exact absurd hafter hbefore
  | push_ok e h1 h2 => exact absurd hafter hbefore
  | push_drop h1 h2 => exact absurd hafter hbefore
  | worker_exit i h1 h2 => exact absurd hafter hbefore
  | worker_enter i h1 h2 => exact absurd hafter hbefore
  | worker_pop i e rest h1 h2 => exact absurd hafter hbefore
  | worker_timeout i h1 h2 => exact absurd hafter hbefore
  | worker_done i e h1 => exact absurd hafter hbefore
  | stop_call h1 => exact absurd hafter (by simp)
  | stop_return h1 h2 =>
    simp only [Conserved] at hc
    refine ⟨h2, ?_, ?_⟩
    · show s.queue = []
      have hlen : s.queue.length = 0 := by omega
      exact List.length_eq_zero.mp hlen
    · show countProcessing s.workers = 0
      omega

/-- Closed witness for C2_stop_returns_drained: one worker, capacity 1,
stop() called immediately; the join-return step observes the drained
queue. -/
theorem C2_witness :
    ({ {
          initState Nat 1 with
          stopper := StopPhase.joining,
          stopRequested := true } with
        stopper := StopPhase.returned } : StreamState Nat).queue = [] :=
  (C2_stop_returns_drained
    (Reachable.step (@Reachable.init 1 1 Nat)
      (Step.stop_call (initState Nat 1) rfl))
    (Step.stop_return _ rfl rfl)
    (by decide) rfl).2.1

/-- Closed witness for C10_spend_tokens_budget: a registered campaign
with budget 10 accepts a spend of 4 and the invariant holds after the
sequence register-then-spend. -/
theorem C10_witness :
    BudgetOk (applyOps CognitiveManager.init
      [MgrOp.register "c" "g" 10, MgrOp.spend "c" 4]) :=
  C10_spend_tokens_budget.2 [MgrOp.register "c" "g" 10, MgrOp.spend "c" 4]
    (by
      intro cid goal budget hmem
      simp only [List.mem_cons, List.not_mem_nil, or_false] at hmem
      rcases hmem with h | h
      · injection h with h1 h2 h3
        subst h3
        norm_num
      · exact absurd h (by simp))
